import Mathlib

/-!
Verification development for the optunity sklearn tutorial notebook
(`notebooks/sklearn-automated-classification.ipynb`) and the structured
conditional search-space optimizer its spec describes.

The notebook itself contains two pieces of genuine logic:
  * `train_svm` — a dispatcher building an SVC with kernel-dependent arguments;
  * `performance` — an objective that dispatches over four classifiers,
    truncating some hyperparameters with `int(...)`.
These are embedded shallowly below (external sklearn constructors are modelled
as data constructors recording exactly the arguments they receive).

The optimizer (`optunity.maximize_structured`, called `optimize` in the spec)
lives in the external optunity library, not in this repository; following the
spec, it is modelled here from the spec's own algorithm description (flatten,
decode with clamping, sequential budgeted evaluation with a running best,
error policy).  Scores and numeric parameters are modelled as rationals.
-/

namespace Optunity

/-- A parameter value in a `Configuration`: a number, a categorical label, or
the explicit "unset" marker for parameters inactive in the chosen branch. -/
inductive Value where
  | num (q : ℚ) : Value
  | cat (s : String) : Value
  | unset : Value
deriving DecidableEq, Repr

/-! Modelled from the spec: the `SearchSpace` tree (§3).  A space is a list of
named parameters, each either a numeric `Range` with bounds `(lo, hi)` or a
`Choice` among labelled, mutually exclusive branches; `leaf` is the space with
no parameters.  `Branches` is the branch list of one Choice node. -/
mutual
inductive SearchSpace where
  | leaf : SearchSpace
  | range (name : String) (lo hi : ℚ) (rest : SearchSpace) : SearchSpace
  | choice (name : String) (branches : Branches) (rest : SearchSpace) : SearchSpace
inductive Branches where
  | nil : Branches
  | cons (label : String) (space : SearchSpace) (rest : Branches) : Branches
end

/-- Number of branches of a Choice node. -/
def Branches.length : Branches → Nat
  | .nil => 0
  | .cons _ _ rest => 1 + rest.length

/-- The labels of a Choice node, in branch order. -/
def Branches.labels : Branches → List String
  | .nil => []
  | .cons lbl _ rest => lbl :: rest.labels

/-- `true` iff the list has no duplicate elements. -/
def noDupB : List String → Bool
  | [] => true
  | x :: xs => !xs.contains x && noDupB xs

/-! Modelled from the spec: search-space validation (§3 invariants): within one
Choice the branch labels are unique and there is at least one branch; a Range
always has `lo < hi`. -/
mutual
def SearchSpace.validB : SearchSpace → Bool
  | .leaf => true
  | .range _ lo hi rest => decide (lo < hi) && rest.validB
  | .choice _ bs rest =>
      decide (0 < bs.length) && noDupB bs.labels && bs.validB && rest.validB
def Branches.validB : Branches → Bool
  | .nil => true
  | .cons _ s rest => s.validB && rest.validB
end

/-! A Choice node somewhere in the space has duplicate branch labels. -/
mutual
def SearchSpace.hasDupLabels : SearchSpace → Bool
  | .leaf => false
  | .range _ _ _ rest => rest.hasDupLabels
  | .choice _ bs rest => !noDupB bs.labels || bs.hasDupLabels || rest.hasDupLabels
def Branches.hasDupLabels : Branches → Bool
  | .nil => false
  | .cons _ s rest => s.hasDupLabels || rest.hasDupLabels
end

/-! A Range node somewhere in the space is malformed (`lo ≥ hi`). -/
mutual
def SearchSpace.hasBadRange : SearchSpace → Bool
  | .leaf => false
  | .range _ lo hi rest => decide (hi ≤ lo) || rest.hasBadRange
  | .choice _ bs rest => bs.hasBadRange || rest.hasBadRange
def Branches.hasBadRange : Branches → Bool
  | .nil => false
  | .cons _ s rest => s.hasBadRange || rest.hasBadRange
end

/-! Number of flattened meta-vector dimensions: one per Choice node plus one
per Range node (spec §4.1 step 1). -/
mutual
def SearchSpace.numDims : SearchSpace → Nat
  | .leaf => 0
  | .range _ _ _ rest => 1 + rest.numDims
  | .choice _ bs rest => 1 + bs.numDims + rest.numDims
def Branches.numDims : Branches → Nat
  | .nil => 0
  | .cons _ s rest => s.numDims + rest.numDims
end

/-! All parameter names of the space (union across all branches), in
flattening order. -/
mutual
def SearchSpace.names : SearchSpace → List String
  | .leaf => []
  | .range n _ _ rest => n :: rest.names
  | .choice n bs rest => n :: (bs.names ++ rest.names)
def Branches.names : Branches → List String
  | .nil => []
  | .cons _ s rest => s.names ++ rest.names
end

/-- Clamp a raw proposal into the normalized domain `[0, 1]` (spec §4.1
step 5: bound decoding clamps even on floating-point overshoot). -/
def clamp01 (r : ℚ) : ℚ := max 0 (min 1 r)

/-- Linear scaling of a clamped normalized value into `[lo, hi]`. -/
def scale (lo hi r : ℚ) : ℚ := lo + clamp01 r * (hi - lo)

/-- Categorical decoding: the selected branch index among `k` branches for a
raw proposal `r` — floor of `clamp01 r * k`, capped at `k - 1`.  Ties are
broken in a fixed way (lowest index wins, spec §4.1 step 5). -/
def selIndex (k : Nat) (r : ℚ) : Nat :=
  min (k - 1) (Rat.floor (clamp01 r * (k : ℚ))).toNat

/-- One decoded dimension: a Choice node with its labels, selected branch
index, and activity flag, or a Range node with its bounds, decoded value and
activity flag.  A dimension is active iff every Choice on the path to it
selected the branch containing it. -/
inductive DimOut where
  | choiceOut (name : String) (labels : List String) (selected : Nat) (active : Bool) : DimOut
  | rangeOut (name : String) (lo hi : ℚ) (value : ℚ) (active : Bool) : DimOut
deriving DecidableEq, Repr

def DimOut.name : DimOut → String
  | .choiceOut n _ _ _ => n
  | .rangeOut n _ _ _ _ => n

def DimOut.active : DimOut → Bool
  | .choiceOut _ _ _ a => a
  | .rangeOut _ _ _ _ a => a

/-- The configuration value a decoded dimension contributes: the selected
label or the scaled-and-clamped number when active, `unset` otherwise. -/
def DimOut.value : DimOut → Value
  | .choiceOut _ labels k a => if a then .cat (labels.getD k "") else .unset
  | .rangeOut _ _ _ v a => if a then .num v else .unset

/-! Modelled from the spec: decode the flattened raw vector into one `DimOut`
per dimension (spec §4.1 step 3).  `raw` is the search algorithm's proposal,
`i` the index of the next raw coordinate, `act` whether the current subtree is
on the selected path.  Each Choice node consumes one coordinate and selects
one branch; each Range node consumes one coordinate and decodes by clamped
linear scaling.  `Branches.decode` decodes branch `j`, `j+1`, ... of a Choice
whose selected branch is `k`. -/
mutual
def SearchSpace.decode : SearchSpace → (Nat → ℚ) → Nat → Bool → List DimOut × Nat
  | .leaf, _, i, _ => ([], i)
  | .range n lo hi rest, raw, i, act =>
      let p := rest.decode raw (i + 1) act
      (DimOut.rangeOut n lo hi (scale lo hi (raw i)) act :: p.1, p.2)
  | .choice n bs rest, raw, i, act =>
      let k := selIndex bs.length (raw i)
      let pb := bs.decode raw (i + 1) act k 0
      let pr := rest.decode raw pb.2 act
      (DimOut.choiceOut n bs.labels k act :: (pb.1 ++ pr.1), pr.2)
def Branches.decode : Branches → (Nat → ℚ) → Nat → Bool → Nat → Nat → List DimOut × Nat
  | .nil, _, i, _, _, _ => ([], i)
  | .cons _ s rest, raw, i, act, k, j =>
      let ps := s.decode raw i (act && decide (j = k))
      let pr := rest.decode raw ps.2 act k (j + 1)
      (ps.1 ++ pr.1, pr.2)
end

/-- The flat `Configuration` produced from decoded dimensions: one
`(name, value)` pair per dimension, in flattening order. -/
def configOf (outs : List DimOut) : List (String × Value) :=
  outs.map (fun d => (d.name, d.value))

/-- The configuration evaluated for one raw proposal vector. -/
def evalConfig (space : SearchSpace) (raw : Nat → ℚ) : List (String × Value) :=
  configOf (space.decode raw 0 true).1

/-- One recorded evaluation: the configuration and its score.  `score = none`
is the sentinel worst score used when the objective failed with an
`ObjectiveError`; it compares below every real score. -/
structure EvalResult where
  config : List (String × Value)
  score : Option ℚ
deriving DecidableEq, Repr

/-- Modelled from the spec: the `OptimizationReport` (§3): best configuration
found, its score, and the full trace of evaluated configurations. -/
structure OptReport where
  best : List (String × Value)
  bestScore : ℚ
  trace : List EvalResult
deriving DecidableEq, Repr

/-- Modelled from the spec: the fatal error outcomes of `optimize` (§7).
Per-evaluation `ObjectiveError`s are caught and never appear here. -/
inductive OptError where
  | invalidSearchSpace : OptError
  | budgetExhaustedWithNoValidResult : OptError
deriving DecidableEq, Repr

/-- A linear congruential pseudo-random generator step (the fixed-seed
deterministic randomness source of the model). -/
def lcg (s : Nat) : Nat := (1103515245 * s + 12345) % 2147483648

/-- The `i`-th raw coordinate of the pseudo-random stream for a seed:
`lcg` iterated `i + 1` times, normalized into `[0, 1)`. -/
def rawAt (seed i : Nat) : ℚ := ((lcg^[i + 1] seed : Nat) : ℚ) / 2147483648

/-- The raw proposal vector used by evaluation number `t` (coordinates are
consumed positionally, `numDims` of them per evaluation). -/
def rawsFor (space : SearchSpace) (seed t : Nat) : Nat → ℚ :=
  fun i => rawAt seed (t * space.numDims + i)

/-- Modelled from the spec: the sequential evaluation loop (§4.1 steps 3–4).
Each of the `budget` evaluations decodes a proposal into a configuration and
invokes the objective exactly once; an objective failure is caught and
recorded with the sentinel worst score `none`, and the loop continues. -/
def runTrace (space : SearchSpace) (objective : List (String × Value) → Except String ℚ)
    (budget seed : Nat) : List EvalResult :=
  (List.range budget).map (fun t =>
    let cfg := evalConfig space (rawsFor space seed t)
    match objective cfg with
    | .ok s => { config := cfg, score := some s }
    | .error _ => { config := cfg, score := none })

/-- Running-best tracking (§4.1 step 4) over the remaining trace, given the
current best configuration `c` with score `s`.  Updates only on a strictly
better score, so ties are broken first-found. -/
def bestFrom (c : List (String × Value)) (s : ℚ) :
    List EvalResult → List (String × Value) × ℚ
  | [] => (c, s)
  | r :: rest =>
    match r.score with
    | some s2 => if s < s2 then bestFrom r.config s2 rest else bestFrom c s rest
    | none => bestFrom c s rest

/-- The best (configuration, score) of a trace, or `none` when every
evaluation failed. -/
def bestOf : List EvalResult → Option (List (String × Value) × ℚ)
  | [] => none
  | r :: rest =>
    match r.score with
    | some s => some (bestFrom r.config s rest)
    | none => bestOf rest

/-!
Modelled from the spec: `optimize(space, objective, budget)` (§4.1), with the
seed made explicit.  Validation happens first and consumes no budget; then
`budget` evaluations run; then the report is assembled from the running best,
or `budgetExhaustedWithNoValidResult` is raised when every evaluation failed.
The second component counts objective invocations: one per trace entry, and
zero when validation fails. -/
def optimizeWithCount (space : SearchSpace)
    (objective : List (String × Value) → Except String ℚ) (budget seed : Nat) :
    Except OptError OptReport × Nat :=
  if space.validB = false ∨ budget = 0 then (.error .invalidSearchSpace, 0)
  else
    (match bestOf (runTrace space objective budget seed) with
     | none => .error .budgetExhaustedWithNoValidResult
     | some p => .ok { best := p.1, bestScore := p.2,
                       trace := runTrace space objective budget seed },
     (runTrace space objective budget seed).length)

/-- Modelled from the spec: `optimize` itself — the report (or fatal error)
of `optimizeWithCount`. -/
def optimize (space : SearchSpace)
    (objective : List (String × Value) → Except String ℚ) (budget seed : Nat) :
    Except OptError OptReport :=
  (optimizeWithCount space objective budget seed).1

/-!
Shallow embedding of the notebook's own code.  The sklearn constructors
(`SVC`, `KNeighborsClassifier`, `GaussianNB`, `RandomForestClassifier`) and
`fit` are external collaborators; they are modelled as data constructors that
record exactly the arguments the notebook passes them.  Numeric arguments
arrive from optunity as floats-or-None, modelled as `Option ℚ`; string
arguments as `Option String`. -/

/-- The arguments the notebook passes to the `SVC` constructor, one
constructor per branch of `train_svm` (arguments not passed are simply
absent, so the model trivially cannot depend on them). -/
inductive SVCCall where
  | linear (kernel : Option String) (C : Option ℚ) : SVCCall
  | poly (kernel : Option String) (C : Option ℚ) (degree : Option ℚ) (coef0 : Option ℚ) : SVCCall
  | rbf (kernel : Option String) (C : Option ℚ) (gamma : Option ℚ) : SVCCall
deriving DecidableEq, Repr

/-- An SVC after `model.fit(data, labels)`: the constructor arguments plus the
training data. -/
structure FittedSVC (α β : Type) where
  params : SVCCall
  data : α
  labels : β
deriving DecidableEq, Repr

/-- Embedding of the notebook's `train_svm(data, labels, kernel, C, gamma,
degree, coef0)`: dispatch on the kernel string, construct the SVC with only
the kernel-relevant arguments, fit, return the model; unknown kernels raise. -/
def train_svm {α β : Type} (data : α) (labels : β) (kernel : Option String)
    (C gamma degree coef0 : Option ℚ) : Except String (FittedSVC α β) :=
  if kernel = some "linear" then
    .ok { params := SVCCall.linear kernel C, data := data, labels := labels }
  else if kernel = some "poly" then
    .ok { params := SVCCall.poly kernel C degree coef0, data := data, labels := labels }
  else if kernel = some "rbf" then
    .ok { params := SVCCall.rbf kernel C gamma, data := data, labels := labels }
  else
    .error "Unknown kernel function"

/-- Python's `int(...)` on a float: truncation toward zero. -/
def pyInt (q : ℚ) : Int := if 0 ≤ q then Rat.floor q else Rat.ceil q

/-- Python's `int(x)` where `x` may be `None`: a `TypeError` on `None`. -/
def pyIntOpt : Option ℚ → Except String Int
  | none => .error "TypeError: int() argument must not be None"
  | some q => .ok (pyInt q)

/-- A fitted classifier as built inside `performance`: the constructor
arguments actually passed plus the training data. -/
inductive Classifier (α β : Type) where
  | kNN (n_neighbors : Int) (data : α) (labels : β) : Classifier α β
  | svm (model : FittedSVC α β) : Classifier α β
  | gaussianNB (data : α) (labels : β) : Classifier α β
  | randomForest (n_estimators : Int) (max_features : Int) (data : α) (labels : β) :
      Classifier α β
deriving DecidableEq, Repr

/-- Embedding of the model-fitting dispatch of the notebook's `performance`
objective (the cross-validation decorator, prediction and `roc_auc` scoring
are external library calls downstream of the fitted model): `k-nn` builds
`KNeighborsClassifier(n_neighbors=int(n_neighbors))`, `SVM` delegates to
`train_svm`, `naive-bayes` builds `GaussianNB()`, `random-forest` builds
`RandomForestClassifier(n_estimators=int(n_estimators),
max_features=int(max_features))`; unknown algorithms raise.  Parameter order
and defaults follow the notebook's signature. -/
def performance_fit {α β : Type} (x_train : α) (y_train : β) (algorithm : String)
    (n_neighbors : Option ℚ := none) (n_estimators : Option ℚ := none)
    (max_features : Option ℚ := none) (kernel : Option String := none)
    (C : Option ℚ := none) (gamma : Option ℚ := none) (degree : Option ℚ := none)
    (coef0 : Option ℚ := none) : Except String (Classifier α β) :=
  if algorithm = "k-nn" then do
    let k ← pyIntOpt n_neighbors
    pure (Classifier.kNN k x_train y_train)
  else if algorithm = "SVM" then do
    let m ← train_svm x_train y_train kernel C gamma degree coef0
    pure (Classifier.svm m)
  else if algorithm = "naive-bayes" then
    pure (Classifier.gaussianNB x_train y_train)
  else if algorithm = "random-forest" then do
    let ne ← pyIntOpt n_estimators
    let mf ← pyIntOpt max_features
    pure (Classifier.randomForest ne mf x_train y_train)
  else
    .error ("Unknown algorithm: " ++ algorithm)

/-! ### Supporting lemmas -/

theorem clamp01_nonneg (r : ℚ) : 0 ≤ clamp01 r := le_max_left 0 _

theorem clamp01_le_one (r : ℚ) : clamp01 r ≤ 1 :=
  max_le (by norm_num) (min_le_left 1 r)

theorem scale_mem (lo hi r : ℚ) (h : lo ≤ hi) :
    lo ≤ scale lo hi r ∧ scale lo hi r ≤ hi := by
  have h0 := clamp01_nonneg r
  have h1 := clamp01_le_one r
  unfold scale
  constructor
  · nlinarith
  · nlinarith

theorem selIndex_lt (k : Nat) (r : ℚ) (hk : 0 < k) : selIndex k r < k :=
  lt_of_le_of_lt (Nat.min_le_left _ _) (Nat.sub_lt hk (by norm_num))

theorem Branches.labels_length : ∀ bs : Branches, bs.labels.length = bs.length
  | .nil => rfl
  | .cons _ _ rest => by
      simp [Branches.labels, Branches.length, Branches.labels_length rest, Nat.add_comm]

theorem noDupB_iff : ∀ l : List String, noDupB l = true ↔ l.Nodup
  | [] => by simp [noDupB]
  | x :: xs => by
      simp [noDupB, List.nodup_cons, noDupB_iff xs, List.elem_iff, And.comm]

/-- Per-dimension decoding soundness: a decoded Choice selects a branch index
within its duplicate-free label list; a decoded Range value respects its
declared bounds. -/
def DimOut.sound : DimOut → Prop
  | .choiceOut _ labels k _ => k < labels.length ∧ labels.Nodup
  | .rangeOut _ lo hi v _ => lo ≤ v ∧ v ≤ hi

mutual
theorem SearchSpace.decode_sound (sp : SearchSpace) (raw : Nat → ℚ) (i : Nat) (act : Bool)
    (hv : sp.validB = true) : ∀ d ∈ (sp.decode raw i act).1, d.sound := by
  cases sp with
  | leaf => intro d hd; simp [SearchSpace.decode] at hd
  | range n lo hi rest =>
      intro d hd
      simp only [SearchSpace.validB, Bool.and_eq_true, decide_eq_true_eq] at hv
      simp only [SearchSpace.decode, List.mem_cons] at hd
      rcases hd with hd | hd
      · subst hd
        exact scale_mem lo hi (raw i) (le_of_lt hv.1)
      · exact SearchSpace.decode_sound rest raw (i + 1) act hv.2 d hd
  | choice n bs rest =>
      intro d hd
      simp only [SearchSpace.validB, Bool.and_eq_true, decide_eq_true_eq] at hv
      simp only [SearchSpace.decode, List.mem_cons, List.mem_append] at hd
      rcases hd with hd | hd | hd
      · subst hd
        refine ⟨?_, (noDupB_iff bs.labels).mp hv.1.1.2⟩
        rw [Branches.labels_length]
        exact selIndex_lt bs.length (raw i) hv.1.1.1
      · exact Branches.decode_sound_br bs raw (i + 1) act _ 0 hv.1.2 d hd
      · exact SearchSpace.decode_sound rest raw _ act hv.2 d hd
theorem Branches.decode_sound_br (bs : Branches) (raw : Nat → ℚ) (i : Nat) (act : Bool)
    (k j : Nat) (hv : bs.validB = true) : ∀ d ∈ (bs.decode raw i act k j).1, d.sound := by
  cases bs with
  | nil => intro d hd; simp [Branches.decode] at hd
  | cons lbl s rest =>
      intro d hd
      simp only [Branches.validB, Bool.and_eq_true] at hv
      simp only [Branches.decode, List.mem_append] at hd
      rcases hd with hd | hd
      · exact SearchSpace.decode_sound s raw i _ hv.1 d hd
      · exact Branches.decode_sound_br rest raw _ act k (j + 1) hv.2 d hd
end

mutual
theorem SearchSpace.decode_names (sp : SearchSpace) (raw : Nat → ℚ) (i : Nat) (act : Bool) :
    ((sp.decode raw i act).1).map DimOut.name = sp.names := by
  cases sp with
  | leaf => simp [SearchSpace.decode, SearchSpace.names]
  | range n lo hi rest =>
      simp only [SearchSpace.decode, SearchSpace.names, List.map_cons, DimOut.name,
        List.cons.injEq, true_and]
      exact SearchSpace.decode_names rest raw (i + 1) act
  | choice n bs rest =>
      simp only [SearchSpace.decode, SearchSpace.names, List.map_cons, List.map_append,
        DimOut.name, List.cons.injEq, true_and]
      rw [Branches.decode_names_br bs raw (i + 1) act _ 0,
        SearchSpace.decode_names rest raw _ act]
theorem Branches.decode_names_br (bs : Branches) (raw : Nat → ℚ) (i : Nat) (act : Bool)
    (k j : Nat) : ((bs.decode raw i act k j).1).map DimOut.name = bs.names := by
  cases bs with
  | nil => simp [Branches.decode, Branches.names]
  | cons lbl s rest =>
      simp only [Branches.decode, Branches.names, List.map_append]
      rw [SearchSpace.decode_names s raw i _, Branches.decode_names_br rest raw _ act k (j + 1)]
end

theorem evalConfig_names (space : SearchSpace) (raw : Nat → ℚ) :
    (evalConfig space raw).map Prod.fst = space.names := by
  unfold evalConfig configOf
  rw [List.map_map]
  exact SearchSpace.decode_names space raw 0 true

theorem DimOut.value_of_inactive (d : DimOut) (h : d.active = false) : d.value = .unset := by
  cases d with
  | choiceOut n labels k a => cases a <;> simp_all [DimOut.active, DimOut.value]
  | rangeOut n lo hi v a => cases a <;> simp_all [DimOut.active, DimOut.value]

theorem bestFrom_spec : ∀ (l : List EvalResult) (c : List (String × Value)) (s : ℚ),
    s ≤ (bestFrom c s l).2 ∧
    (∀ r ∈ l, ∀ t, r.score = some t → t ≤ (bestFrom c s l).2) ∧
    (bestFrom c s l = (c, s) ∨
      ∃ i, ∃ h : i < l.length,
        (l.get ⟨i, h⟩).score = some (bestFrom c s l).2 ∧
        (l.get ⟨i, h⟩).config = (bestFrom c s l).1 ∧
        s < (bestFrom c s l).2 ∧
        ∀ j, ∀ hj : j < l.length, j < i → (l.get ⟨j, hj⟩).score ≠ some (bestFrom c s l).2)
  | [], c, s => by simp [bestFrom]
  | r :: rest, c, s => by
    rcases hsc : r.score with _ | s2
    · have ih := bestFrom_spec rest c s
      have hred : bestFrom c s (r :: rest) = bestFrom c s rest := by
        simp [bestFrom, hsc]
      rw [hred]
      refine ⟨ih.1, ?_, ?_⟩
      · intro r' hr' t ht
        rcases List.mem_cons.mp hr' with h | h
        · subst h; rw [hsc] at ht; exact absurd ht (by simp)
        · exact ih.2.1 r' h t ht
      · rcases ih.2.2 with h | ⟨i, hi, h1, h2, h3, h4⟩
        · exact Or.inl h
        · refine Or.inr ⟨i + 1, Nat.succ_lt_succ hi, ?_, ?_, h3, ?_⟩
          · simpa [List.get] using h1
          · simpa [List.get] using h2
          · intro j hj hji
            cases j with
            | zero => simp [List.get, hsc]
            | succ j' =>
                have := h4 j' (Nat.lt_of_succ_lt_succ hj) (Nat.lt_of_succ_lt_succ hji)
                simpa [List.get] using this
    · by_cases hlt : s < s2
      · have ih := bestFrom_spec rest r.config s2
        have hred : bestFrom c s (r :: rest) = bestFrom r.config s2 rest := by
          simp [bestFrom, hsc, hlt]
        rw [hred]
        refine ⟨le_of_lt (lt_of_lt_of_le hlt ih.1), ?_, ?_⟩
        · intro r' hr' t ht
          rcases List.mem_cons.mp hr' with h | h
          · subst h; rw [hsc] at ht
            have : t = s2 := (Option.some.inj ht).symm
            subst this; exact ih.1
          · exact ih.2.1 r' h t ht
        · rcases ih.2.2 with heq | ⟨i, hi, h1, h2, h3, h4⟩
          · refine Or.inr ⟨0, Nat.succ_pos _, ?_, ?_, ?_, ?_⟩
            · simp [List.get, hsc, heq]
            · simp [List.get, heq]
            · rw [heq]; exact hlt
            · intro j hj hji; exact absurd hji (Nat.not_lt_zero j)
          · refine Or.inr ⟨i + 1, Nat.succ_lt_succ hi, ?_, ?_,
              lt_trans hlt h3, ?_⟩
            · simpa [List.get] using h1
            · simpa [List.get] using h2
            · intro j hj hji
              cases j with
              | zero =>
                  simp only [List.get, hsc, ne_eq, Option.some.injEq]
                  exact ne_of_lt h3
              | succ j' =>
                  have := h4 j' (Nat.lt_of_succ_lt_succ hj) (Nat.lt_of_succ_lt_succ hji)
                  simpa [List.get] using this
      · have ih := bestFrom_spec rest c s
        have hred : bestFrom c s (r :: rest) = bestFrom c s rest := by
          simp [bestFrom, hsc, hlt]
        rw [hred]
        have hs2 : s2 ≤ s := le_of_not_lt hlt
        refine ⟨ih.1, ?_, ?_⟩
        · intro r' hr' t ht
          rcases List.mem_cons.mp hr' with h | h
          · subst h; rw [hsc] at ht
            have : t = s2 := (Option.some.inj ht).symm
            subst this; exact le_trans hs2 ih.1
          · exact ih.2.1 r' h t ht
        · rcases ih.2.2 with h | ⟨i, hi, h1, h2, h3, h4⟩
          · exact Or.inl h
          · refine Or.inr ⟨i + 1, Nat.succ_lt_succ hi, ?_, ?_, h3, ?_⟩
            · simpa [List.get] using h1
            · simpa [List.get] using h2
            · intro j hj hji
              cases j with
              | zero =>
                  simp only [List.get, hsc, ne_eq, Option.some.injEq]
                  exact ne_of_lt (lt_of_le_of_lt hs2 h3)
              | succ j' =>
                  have := h4 j' (Nat.lt_of_succ_lt_succ hj) (Nat.lt_of_succ_lt_succ hji)
                  simpa [List.get] using this

theorem bestOf_spec : ∀ (l : List EvalResult) (c : List (String × Value)) (s : ℚ),
    bestOf l = some (c, s) →
    (∀ r ∈ l, ∀ t, r.score = some t → t ≤ s) ∧
    ∃ i, ∃ h : i < l.length,
      (l.get ⟨i, h⟩).score = some s ∧ (l.get ⟨i, h⟩).config = c ∧
      ∀ j, ∀ hj : j < l.length, j < i → (l.get ⟨j, hj⟩).score ≠ some s
  | [], c, s => by simp [bestOf]
  | r :: rest, c, s => by
    intro hb
    rcases hsc : r.score with _ | s0
    · have hred : bestOf (r :: rest) = bestOf rest := by simp [bestOf, hsc]
      rw [hred] at hb
      obtain ⟨hmax, i, hi, h1, h2, h4⟩ := bestOf_spec rest c s hb
      refine ⟨?_, i + 1, Nat.succ_lt_succ hi, ?_, ?_, ?_⟩
      · intro r' hr' t ht
        rcases List.mem_cons.mp hr' with h | h
        · subst h; rw [hsc] at ht; exact absurd ht (by simp)
        · exact hmax r' h t ht
      · simpa [List.get] using h1
      · simpa [List.get] using h2
      · intro j hj hji
        cases j with
        | zero => simp [List.get, hsc]
        | succ j' =>
            have := h4 j' (Nat.lt_of_succ_lt_succ hj) (Nat.lt_of_succ_lt_succ hji)
            simpa [List.get] using this
    · have hred : bestOf (r :: rest) = some (bestFrom r.config s0 rest) := by
        simp [bestOf, hsc]
      rw [hred] at hb
      have hbf : bestFrom r.config s0 rest = (c, s) := Option.some.inj hb
      obtain ⟨ha, hmax, hc⟩ := bestFrom_spec rest r.config s0
      rw [hbf] at ha hmax hc
      refine ⟨?_, ?_⟩
      · intro r' hr' t ht
        rcases List.mem_cons.mp hr' with h | h
        · subst h; rw [hsc] at ht
          have : t = s0 := (Option.some.inj ht).symm
          subst this; exact ha
        · exact hmax r' h t ht
      · rcases hc with heq | ⟨i, hi, h1, h2, h3, h4⟩
        · have hcc : c = r.config := congrArg Prod.fst heq
          have hss : s = s0 := congrArg Prod.snd heq
          refine ⟨0, Nat.succ_pos _, ?_, ?_, ?_⟩
          · simp [List.get, hsc, hss]
          · simp [List.get, hcc]
          · intro j hj hji; exact absurd hji (Nat.not_lt_zero j)
        · refine ⟨i + 1, Nat.succ_lt_succ hi, ?_, ?_, ?_⟩
          · simpa [List.get] using h1
          · simpa [List.get] using h2
          · intro j hj hji
            cases j with
            | zero =>
                simp only [List.get, hsc, ne_eq, Option.some.injEq]
                exact ne_of_lt h3
            | succ j' =>
                have := h4 j' (Nat.lt_of_succ_lt_succ hj) (Nat.lt_of_succ_lt_succ hji)
                simpa [List.get] using this

theorem bestOf_eq_none : ∀ l : List EvalResult,
    bestOf l = none ↔ ∀ r ∈ l, r.score = none
  | [] => by simp [bestOf]
  | r :: rest => by
    rcases hsc : r.score with _ | s0
    · have hred : bestOf (r :: rest) = bestOf rest := by simp [bestOf, hsc]
      rw [hred]
      constructor
      · intro h r' hr'
        rcases List.mem_cons.mp hr' with h' | h'
        · subst h'; exact hsc
        · exact (bestOf_eq_none rest).mp h r' h'
      · intro h
        exact (bestOf_eq_none rest).mpr (fun r' hr' => h r' (List.mem_cons_of_mem r hr'))
    · have hred : bestOf (r :: rest) = some (bestFrom r.config s0 rest) := by
        simp [bestOf, hsc]
      rw [hred]
      constructor
      · intro h; exact Option.noConfusion h
      · intro h
        have := h r (List.mem_cons_self r rest)
        rw [hsc] at this
        exact Option.noConfusion this

theorem runTrace_length (space : SearchSpace)
    (obj : List (String × Value) → Except String ℚ) (budget seed : Nat) :
    (runTrace space obj budget seed).length = budget := by
  unfold runTrace
  rw [List.length_map, List.length_range]

theorem runTrace_mem_spec (space : SearchSpace)
    (obj : List (String × Value) → Except String ℚ) (budget seed : Nat) :
    ∀ r ∈ runTrace space obj budget seed,
      ∃ t, t < budget ∧ r.config = evalConfig space (rawsFor space seed t) ∧
        (∀ e, obj r.config = .error e → r.score = none) ∧
        (∀ s, obj r.config = .ok s → r.score = some s) := by
  intro r hr
  unfold runTrace at hr
  obtain ⟨t, ht, hrt⟩ := List.mem_map.mp hr
  refine ⟨t, List.mem_range.mp ht, ?_⟩
  rcases hobj : obj (evalConfig space (rawsFor space seed t)) with e | s
  · simp only [hobj] at hrt
    subst hrt
    exact ⟨rfl, fun _ _ => rfl,
      fun s hs => Except.noConfusion (hobj.symm.trans hs)⟩
  · simp only [hobj] at hrt
    subst hrt
    exact ⟨rfl, fun e he => Except.noConfusion (hobj.symm.trans he),
      fun s2 hs => congrArg some (Except.ok.inj (hobj.symm.trans hs))⟩

theorem runTrace_config_names (space : SearchSpace)
    (obj : List (String × Value) → Except String ℚ) (budget seed : Nat) :
    ∀ r ∈ runTrace space obj budget seed, r.config.map Prod.fst = space.names := by
  intro r hr
  obtain ⟨t, _, hc, _⟩ := runTrace_mem_spec space obj budget seed r hr
  rw [hc]
  exact evalConfig_names space (rawsFor space seed t)

/-- Elimination for a successful `optimize` run: the report's best pair is the
`bestOf` of the evaluation trace, and the report's trace is that trace. -/
theorem optimize_ok_elim (space : SearchSpace)
    (obj : List (String × Value) → Except String ℚ) (budget seed : Nat)
    (report : OptReport) (h : optimize space obj budget seed = .ok report) :
    bestOf (runTrace space obj budget seed) = some (report.best, report.bestScore) ∧
    report.trace = runTrace space obj budget seed := by
  unfold optimize optimizeWithCount at h
  by_cases hcond : space.validB = false ∨ budget = 0
  · rw [if_pos hcond] at h
    exact Except.noConfusion h
  · rw [if_neg hcond] at h
    rcases hbo : bestOf (runTrace space obj budget seed) with _ | p
    · simp only [hbo] at h
      exact Except.noConfusion h
    · simp only [hbo] at h
      have hrep := Except.ok.inj h
      subst hrep
      exact ⟨rfl, rfl⟩

mutual
theorem SearchSpace.invalid_of_dup (sp : SearchSpace) (h : sp.hasDupLabels = true) :
    sp.validB = false := by
  cases sp with
  | leaf => exact absurd h (by simp [SearchSpace.hasDupLabels])
  | range n lo hi rest =>
      have hrest := SearchSpace.invalid_of_dup rest
        (by simpa [SearchSpace.hasDupLabels] using h)
      simp [SearchSpace.validB, hrest]
  | choice n bs rest =>
      simp only [SearchSpace.hasDupLabels, Bool.or_eq_true] at h
      rcases h with (h | h) | h
      · have hdup : noDupB bs.labels = false := by
          rwa [Bool.not_eq_true'] at h
        simp [SearchSpace.validB, hdup]
      · have hbs := Branches.invalid_of_dup_br bs h
        simp [SearchSpace.validB, hbs]
      · have hrest := SearchSpace.invalid_of_dup rest h
        simp [SearchSpace.validB, hrest]
theorem Branches.invalid_of_dup_br (bs : Branches) (h : bs.hasDupLabels = true) :
    bs.validB = false := by
  cases bs with
  | nil => exact absurd h (by simp [Branches.hasDupLabels])
  | cons lbl s rest =>
      simp only [Branches.hasDupLabels, Bool.or_eq_true] at h
      rcases h with h | h
      · have hs := SearchSpace.invalid_of_dup s h
        simp [Branches.validB, hs]
      · have hrest := Branches.invalid_of_dup_br rest h
        simp [Branches.validB, hrest]
end

mutual
theorem SearchSpace.invalid_of_badRange (sp : SearchSpace)
    (h : sp.hasBadRange = true) : sp.validB = false := by
  cases sp with
  | leaf => exact absurd h (by simp [SearchSpace.hasBadRange])
  | range n lo hi rest =>
      simp only [SearchSpace.hasBadRange, Bool.or_eq_true] at h
      rcases h with h | h
      · have hle : hi ≤ lo := of_decide_eq_true h
        have hne : decide (lo < hi) = false := decide_eq_false (not_lt.mpr hle)
        simp [SearchSpace.validB, hne]
      · have hrest := SearchSpace.invalid_of_badRange rest h
        simp [SearchSpace.validB, hrest]
  | choice n bs rest =>
      simp only [SearchSpace.hasBadRange, Bool.or_eq_true] at h
      rcases h with h | h
      · have hbs := Branches.invalid_of_badRange_br bs h
        simp [SearchSpace.validB, hbs]
      · have hrest := SearchSpace.invalid_of_badRange rest h
        simp [SearchSpace.validB, hrest]
theorem Branches.invalid_of_badRange_br (bs : Branches) (h : bs.hasBadRange = true) :
    bs.validB = false := by
  cases bs with
  | nil => exact absurd h (by simp [Branches.hasBadRange])
  | cons lbl s rest =>
      simp only [Branches.hasBadRange, Bool.or_eq_true] at h
      rcases h with h | h
      · have hs := SearchSpace.invalid_of_badRange s h
        simp [Branches.validB, hs]
      · have hrest := Branches.invalid_of_badRange_br rest h
        simp [Branches.validB, hrest]
end

/-! ### Claim theorems -/

/-- C1: whenever `optimize` returns a report, the best score equals the
maximum score among all evaluated configurations in the trace (so it is never
worse than any individual evaluation), and the best configuration is the
first-found trace entry attaining that maximum: it sits at an index whose
score is the best score and no earlier trace entry attains that score. -/
theorem claim_C1 (space : SearchSpace)
    (obj : List (String × Value) → Except String ℚ) (budget seed : Nat)
    (report : OptReport) (h : optimize space obj budget seed = .ok report) :
    (∀ r ∈ report.trace, ∀ s, r.score = some s → s ≤ report.bestScore) ∧
    ∃ i, ∃ hi : i < report.trace.length,
      (report.trace.get ⟨i, hi⟩).score = some report.bestScore ∧
      (report.trace.get ⟨i, hi⟩).config = report.best ∧
      ∀ j, ∀ hj : j < report.trace.length, j < i →
        (report.trace.get ⟨j, hj⟩).score ≠ some report.bestScore := by
  obtain ⟨hbo, htr⟩ := optimize_ok_elim space obj budget seed report h
  rw [htr]
  exact bestOf_spec (runTrace space obj budget seed) report.best report.bestScore hbo

/-- C2: for every well-formed search space and positive budget, `optimize`
invokes the objective exactly `budget` times (the invocation count of
`optimizeWithCount` is exactly the budget, one invocation per trace entry). -/
theorem claim_C2 (space : SearchSpace)
    (obj : List (String × Value) → Except String ℚ) (budget seed : Nat)
    (hv : space.validB = true) (hb : 0 < budget) :
    (optimizeWithCount space obj budget seed).2 = budget := by
  unfold optimizeWithCount
  rw [if_neg (by simp [hv]; omega)]
  exact runTrace_length space obj budget seed

/-- C3: for every well-formed search space and every raw proposal vector —
including vectors outside the normalized domain — decoding selects exactly
one branch of each Choice node (a unique index among its duplicate-free
labels) and every decoded Range value lies within its declared `[lo, hi]`
bounds inclusive (values are clamped); and every configuration the optimizer
evaluates is the decoding of such a proposal vector. -/
theorem claim_C3 (space : SearchSpace)
    (obj : List (String × Value) → Except String ℚ) (budget seed : Nat)
    (hv : space.validB = true) :
    (∀ raw : Nat → ℚ, ∀ d ∈ (space.decode raw 0 true).1,
      (∀ n labels k a, d = DimOut.choiceOut n labels k a →
        ∃! j : Fin labels.length, labels.get j = labels.getD k "") ∧
      (∀ n lo hi v a, d = DimOut.rangeOut n lo hi v a → lo ≤ v ∧ v ≤ hi)) ∧
    (∀ r ∈ runTrace space obj budget seed,
      ∃ raw : Nat → ℚ, r.config = configOf (space.decode raw 0 true).1) := by
  constructor
  · intro raw d hd
    have hs := SearchSpace.decode_sound space raw 0 true hv d hd
    constructor
    · intro n labels k a he
      subst he
      obtain ⟨hk, hnd⟩ := hs
      refine ⟨⟨k, hk⟩, (List.getD_eq_get labels "" hk).symm, ?_⟩
      intro j hj
      exact (List.Nodup.get_inj_iff hnd).mp
        (hj.trans (List.getD_eq_get labels "" hk))
    · intro n lo hi v a he
      subst he
      exact hs
  · intro r hr
    obtain ⟨t, _, hc, _⟩ := runTrace_mem_spec space obj budget seed r hr
    exact ⟨rawsFor space seed t, hc⟩

/-- C4: `optimize` is deterministic — two runs with the same space, objective,
budget and seed that both return a report return the same best configuration,
the same best score and the same trace. -/
theorem claim_C4 (space : SearchSpace)
    (obj : List (String × Value) → Except String ℚ) (budget seed : Nat)
    (r1 r2 : OptReport) (h1 : optimize space obj budget seed = .ok r1)
    (h2 : optimize space obj budget seed = .ok r2) :
    r1.best = r2.best ∧ r1.bestScore = r2.bestScore ∧ r1.trace = r2.trace := by
  have h := Except.ok.inj (h1.symm.trans h2)
  subst h
  exact ⟨rfl, rfl, rfl⟩

/-- C5: an objective failure on an evaluated configuration is caught: the
configuration is recorded in the trace with the sentinel worst score `none`,
the search continues through the full budget, and as soon as any single
evaluation succeeds the overall `optimize` call still returns a report — a
per-evaluation failure is never fatal. -/
theorem claim_C5 (space : SearchSpace)
    (obj : List (String × Value) → Except String ℚ) (budget seed : Nat)
    (hv : space.validB = true) (hb : 0 < budget) :
    (∀ r ∈ runTrace space obj budget seed,
      ∀ e, obj r.config = .error e → r.score = none) ∧
    (runTrace space obj budget seed).length = budget ∧
    ((∃ r ∈ runTrace space obj budget seed, ∃ s, r.score = some s) →
      ∃ report, optimize space obj budget seed = .ok report) := by
  refine ⟨?_, runTrace_length space obj budget seed, ?_⟩
  · intro r hr e he
    obtain ⟨_, _, _, herr, _⟩ := runTrace_mem_spec space obj budget seed r hr
    exact herr e he
  · rintro ⟨r, hr, s, hs⟩
    have hne : bestOf (runTrace space obj budget seed) ≠ none := by
      intro hn
      have := (bestOf_eq_none _).mp hn r hr
      rw [hs] at this
      exact Option.noConfusion this
    rcases hbo : bestOf (runTrace space obj budget seed) with _ | p
    · exact absurd hbo hne
    · refine ⟨OptReport.mk p.1 p.2 (runTrace space obj budget seed), ?_⟩
      unfold optimize optimizeWithCount
      rw [if_neg (by simp [hv]; omega), hbo]

/-- C6: if the search-space invariants are violated — a Choice with duplicate
branch labels, a Range with `min ≥ max`, or a non-positive budget — then
`optimize` fails with `InvalidSearchSpace` at validation time and the
objective-invocation count is zero: no budget is consumed. -/
theorem claim_C6 (space : SearchSpace)
    (obj : List (String × Value) → Except String ℚ) (budget seed : Nat)
    (h : space.hasDupLabels = true ∨ space.hasBadRange = true ∨ budget = 0) :
    optimizeWithCount space obj budget seed =
      (.error .invalidSearchSpace, 0) := by
  unfold optimizeWithCount
  have hcond : space.validB = false ∨ budget = 0 := by
    rcases h with h | h | h
    · exact Or.inl (SearchSpace.invalid_of_dup space h)
    · exact Or.inl (SearchSpace.invalid_of_badRange space h)
    · exact Or.inr h
  exact if_pos hcond

/-- C7: on a well-formed space with positive budget, `optimize` returns
`BudgetExhaustedWithNoValidResult` if and only if every one of its objective
evaluations failed (every trace entry carries the sentinel score `none`). -/
theorem claim_C7 (space : SearchSpace)
    (obj : List (String × Value) → Except String ℚ) (budget seed : Nat)
    (hv : space.validB = true) (hb : 0 < budget) :
    (optimize space obj budget seed =
        .error .budgetExhaustedWithNoValidResult ↔
      ∀ r ∈ runTrace space obj budget seed, r.score = none) := by
  unfold optimize optimizeWithCount
  rw [if_neg (by simp [hv]; omega)]
  rcases hbo : bestOf (runTrace space obj budget seed) with _ | p
  · constructor
    · intro _
      exact (bestOf_eq_none _).mp hbo
    · intro _
      rfl
  · constructor
    · intro hcontra
      exact Except.noConfusion hcontra
    · intro hall
      have hn := (bestOf_eq_none _).mpr hall
      rw [hbo] at hn
      exact Option.noConfusion hn

/-- C8: every configuration the optimizer passes to the objective carries
exactly the parameter names of the whole space (the union across all
branches, in a stable order independent of the evaluation), the best
configuration of a returned report carries the same names, and every decoded
dimension that is not on the active branch contributes the `unset` marker. -/
theorem claim_C8 (space : SearchSpace)
    (obj : List (String × Value) → Except String ℚ) (budget seed : Nat) :
    (∀ r ∈ runTrace space obj budget seed,
      r.config.map Prod.fst = space.names) ∧
    (∀ report, optimize space obj budget seed = .ok report →
      report.best.map Prod.fst = space.names) ∧
    (∀ raw : Nat → ℚ, ∀ d ∈ (space.decode raw 0 true).1,
      d.active = false → d.value = .unset) := by
  refine ⟨runTrace_config_names space obj budget seed, ?_, ?_⟩
  · intro report h
    obtain ⟨hbo, _⟩ := optimize_ok_elim space obj budget seed report h
    obtain ⟨_, i, hi, _, hcfg, _⟩ :=
      bestOf_spec (runTrace space obj budget seed) report.best report.bestScore hbo
    rw [← hcfg]
    exact runTrace_config_names space obj budget seed _
      (List.get_mem (runTrace space obj budget seed) i hi)
  · intro raw d _ ha
    exact DimOut.value_of_inactive d ha

/-- C9: the model built by `train_svm` depends only on the parameters
relevant to the chosen kernel: for `linear` it is independent of `gamma`,
`degree` and `coef0`; for `rbf` it is independent of `degree` and `coef0`;
for `poly` it is independent of `gamma`. -/
theorem claim_C9 {α β : Type} (data : α) (labels : β) (C : Option ℚ) :
    (∀ g1 d1 c1 g2 d2 c2 : Option ℚ,
      train_svm data labels (some "linear") C g1 d1 c1 =
        train_svm data labels (some "linear") C g2 d2 c2) ∧
    (∀ g : Option ℚ, ∀ d1 c1 d2 c2 : Option ℚ,
      train_svm data labels (some "rbf") C g d1 c1 =
        train_svm data labels (some "rbf") C g d2 c2) ∧
    (∀ d c0 : Option ℚ, ∀ g1 g2 : Option ℚ,
      train_svm data labels (some "poly") C g1 d c0 =
        train_svm data labels (some "poly") C g2 d c0) := by
  refine ⟨?_, ?_, ?_⟩ <;> intros <;> rfl

/-- C10: the `performance` objective truncates continuous proposals to
integers only for some parameters: `k-nn` builds its classifier with
`int(n_neighbors)` and `random-forest` with `int(n_estimators)` and
`int(max_features)`, but for `SVM` with `kernel='poly'` the `degree` and
`coef0` values are passed to the SVC constructor unconverted, so the
non-integer degree `3.885` reaches the model as-is. -/
theorem claim_C10 {α β : Type} (x : α) (y : β) :
    (∀ q : ℚ, ∀ ne mf : Option ℚ, ∀ k : Option String, ∀ C g d c0 : Option ℚ,
      performance_fit x y "k-nn" (some q) ne mf k C g d c0 =
        .ok (Classifier.kNN (pyInt q) x y)) ∧
    (∀ nn : Option ℚ, ∀ ne mf : ℚ, ∀ k : Option String, ∀ C g d c0 : Option ℚ,
      performance_fit x y "random-forest" nn (some ne) (some mf) k C g d c0 =
        .ok (Classifier.randomForest (pyInt ne) (pyInt mf) x y)) ∧
    (∀ nn ne mf : Option ℚ, ∀ C g d c0 : Option ℚ,
      performance_fit x y "SVM" nn ne mf (some "poly") C g d c0 =
        .ok (Classifier.svm
          { params := SVCCall.poly (some "poly") C d c0, data := x, labels := y })) ∧
    performance_fit x y "SVM" none none none (some "poly") (some (771 / 20))
        none (some (3885 / 1000)) (some (718 / 1000)) =
      .ok (Classifier.svm
        { params := SVCCall.poly (some "poly") (some (771 / 20))
            (some (3885 / 1000)) (some (718 / 1000)),
          data := x, labels := y }) := by
  refine ⟨?_, ?_, ?_, ?_⟩ <;> intros <;> rfl

/-! ### Concrete instances for the witnesses -/

/-- A small concrete search space: a choice of algorithm between a `k-nn`
branch with one range parameter and a parameterless `naive-bayes` branch. -/
def demoSpace : SearchSpace :=
  .choice "algorithm"
    (.cons "k-nn" (.range "n_neighbors" 1 5 .leaf)
      (.cons "naive-bayes" .leaf .nil))
    .leaf

/-- A concrete objective that always succeeds. -/
def demoObj : List (String × Value) → Except String ℚ := fun _ => .ok 1

/-- A concrete objective that always fails. -/
def demoObjFail : List (String × Value) → Except String ℚ :=
  fun _ => .error "invalid configuration"

/-- A concrete search space with duplicate branch labels in its choice. -/
def dupSpace : SearchSpace :=
  .choice "algorithm" (.cons "a" .leaf (.cons "a" .leaf .nil)) .leaf

/-- The report of a concrete successful `optimize` run. -/
def demoReport : OptReport :=
  match optimize demoSpace demoObj 2 0 with
  | .ok r => r
  | .error _ => { best := [], bestScore := 0, trace := [] }

theorem claim_C1_witness :
    (∀ r ∈ demoReport.trace, ∀ s, r.score = some s → s ≤ demoReport.bestScore) ∧
    ∃ i, ∃ hi : i < demoReport.trace.length,
      (demoReport.trace.get ⟨i, hi⟩).score = some demoReport.bestScore ∧
      (demoReport.trace.get ⟨i, hi⟩).config = demoReport.best ∧
      ∀ j, ∀ hj : j < demoReport.trace.length, j < i →
        (demoReport.trace.get ⟨j, hj⟩).score ≠ some demoReport.bestScore :=
  claim_C1 demoSpace demoObj 2 0 demoReport (by rfl)

theorem claim_C2_witness : (optimizeWithCount demoSpace demoObj 2 0).2 = 2 :=
  claim_C2 demoSpace demoObj 2 0 (by rfl) (by decide)

theorem claim_C3_witness :
    (∀ raw : Nat → ℚ, ∀ d ∈ (demoSpace.decode raw 0 true).1,
      (∀ n labels k a, d = DimOut.choiceOut n labels k a →
        ∃! j : Fin labels.length, labels.get j = labels.getD k "") ∧
      (∀ n lo hi v a, d = DimOut.rangeOut n lo hi v a → lo ≤ v ∧ v ≤ hi)) ∧
    (∀ r ∈ runTrace demoSpace demoObj 2 0,
      ∃ raw : Nat → ℚ, r.config = configOf (demoSpace.decode raw 0 true).1) :=
  claim_C3 demoSpace demoObj 2 0 (by rfl)

theorem claim_C4_witness :
    demoReport.best = demoReport.best ∧
    demoReport.bestScore = demoReport.bestScore ∧
    demoReport.trace = demoReport.trace :=
  claim_C4 demoSpace demoObj 2 0 demoReport demoReport (by rfl) (by rfl)

theorem claim_C5_witness :
    (∀ r ∈ runTrace demoSpace demoObjFail 2 0,
      ∀ e, demoObjFail r.config = .error e → r.score = none) ∧
    (runTrace demoSpace demoObjFail 2 0).length = 2 ∧
    ((∃ r ∈ runTrace demoSpace demoObjFail 2 0, ∃ s, r.score = some s) →
      ∃ report, optimize demoSpace demoObjFail 2 0 = .ok report) :=
  claim_C5 demoSpace demoObjFail 2 0 (by rfl) (by decide)

theorem claim_C6_witness :
    optimizeWithCount dupSpace demoObj 3 0 = (.error .invalidSearchSpace, 0) :=
  claim_C6 dupSpace demoObj 3 0 (Or.inl (by rfl))

theorem claim_C7_witness :
    (optimize demoSpace demoObjFail 2 0 =
        .error .budgetExhaustedWithNoValidResult ↔
      ∀ r ∈ runTrace demoSpace demoObjFail 2 0, r.score = none) :=
  claim_C7 demoSpace demoObjFail 2 0 (by rfl) (by decide)

end Optunity
